import Mathlib

/-!
Verification of the model-evaluation core of `bitcoin-fee-model`
(`src/model_data.rs`): normalization, the three-layer predict pipeline,
and their composition.

The `Matrix` arithmetic type and the `Error` enum live outside the provided
source tree, so they are modelled from the specification (sections 4.1 and 7),
with doc comments marking each such definition.  `f32` values are embedded as
exact rationals extended with the IEEE-754 special values (infinity, negative
infinity, NaN); rounding is abstracted away, which is immaterial to the
structural and error-path properties proved here.
-/

set_option autoImplicit false

namespace FeeModel

/-- Modelled from the semantics of Rust `f32` as the spec relies on it:
an exact rational together with the IEEE-754 special values.  Rounding is
abstracted (exact arithmetic); special-value propagation (NaN, division by
zero producing infinities or NaN, NaN comparing false) follows IEEE-754. -/
inductive F32 where
  | num (q : Rat)
  | inf
  | neginf
  | nan
deriving DecidableEq

namespace F32

/-- IEEE-754 addition on the embedded values. -/
def add : F32 → F32 → F32
  | nan, _ => nan
  | _, nan => nan
  | inf, neginf => nan
  | neginf, inf => nan
  | inf, _ => inf
  | _, inf => inf
  | neginf, _ => neginf
  | _, neginf => neginf
  | num a, num b => num (a + b)

/-- IEEE-754 negation on the embedded values. -/
def neg : F32 → F32
  | num a => num (-a)
  | inf => neginf
  | neginf => inf
  | nan => nan

/-- IEEE-754 subtraction on the embedded values. -/
def sub (a b : F32) : F32 := add a (neg b)

/-- IEEE-754 multiplication on the embedded values. -/
def mul : F32 → F32 → F32
  | nan, _ => nan
  | _, nan => nan
  | inf, inf => inf
  | inf, neginf => neginf
  | neginf, inf => neginf
  | neginf, neginf => inf
  | inf, num b => if b = 0 then nan else if 0 < b then inf else neginf
  | num a, inf => if a = 0 then nan else if 0 < a then inf else neginf
  | neginf, num b => if b = 0 then nan else if 0 < b then neginf else inf
  | num a, neginf => if a = 0 then nan else if 0 < a then neginf else inf
  | num a, num b => num (a * b)

/-- IEEE-754 division on the embedded values (signed zero abstracted: the
zero divisor is treated as positive zero, so `x / 0` is `inf`, `neginf` or
`nan` according to the sign of `x`). -/
def div : F32 → F32 → F32
  | nan, _ => nan
  | _, nan => nan
  | inf, inf => nan
  | inf, neginf => nan
  | neginf, inf => nan
  | neginf, neginf => nan
  | inf, num _ => inf
  | neginf, num _ => neginf
  | num _, inf => num 0
  | num _, neginf => num 0
  | num a, num b =>
      if b = 0 then (if a = 0 then nan else if 0 < a then inf else neginf)
      else num (a / b)

/-- The Rust comparison `x >= 0.0`: false on NaN, as IEEE-754 prescribes. -/
def isNonneg : F32 → Bool
  | num q => decide (0 ≤ q)
  | inf => true
  | neginf => false
  | nan => false

instance : Add F32 := ⟨add⟩
instance : Neg F32 := ⟨neg⟩
instance : Sub F32 := ⟨sub⟩
instance : Mul F32 := ⟨mul⟩
instance : Div F32 := ⟨div⟩

end F32

/-- Modelled from `std::collections::HashMap<String, f32>` as used by the
source: only lookup is exercised, so the map is embedded as an association
list queried by first matching key.  The entry order plays the role of the
map's (semantically irrelevant) iteration order. -/
structure HMap where
  entries : List (String × F32)
deriving DecidableEq

/-- The `HashMap::get` lookup: first entry with the given key, if any. -/
def HMap.get (m : HMap) (k : String) : Option F32 :=
  go m.entries
where
  go : List (String × F32) → Option F32
    | [] => none
    | (k₀, v) :: rest => if k₀ = k then some v else go rest

/-- Modelled from the spec, section 7: the error taxonomy reachable from the
evaluation pipeline.  `dimensionMismatch` carries the expected and actual
sizes reported by the matrix layer; the two `Missing…Data` variants are the
ones raised in `ModelData::norm` (visible in the source), each naming the
offending field. -/
inductive Error where
  | dimensionMismatch (expected actual : Nat)
  | missingStdData (field : String)
  | missingMeanData (field : String)
deriving DecidableEq

/-- Modelled from the spec, section 4.1: a dense 2-D container of `f32`
values, an ordered sequence of rows. -/
structure Matrix where
  rows : List (List F32)
deriving DecidableEq

namespace Matrix

/-- Modelled from the spec: `Construct-from-flat-array(values)` gives a 1×N
matrix; always succeeds. -/
def from_array (values : List F32) : Matrix := ⟨[values]⟩

/-- Row count. -/
def numRows (m : Matrix) : Nat := m.rows.length

/-- Column count, derived from the first row (rows are rectangular by the
spec's invariant). -/
def numCols (m : Matrix) : Nat := (m.rows.headD []).length

/-- Modelled from the spec: `Size()` returns `(rows, cols)`. -/
def size (m : Matrix) : Nat × Nat := (m.numRows, m.numCols)

/-- Read-only cell access `m[i][j]`.  Rust indexing panics out of bounds; the
claims only exercise it in bounds, where this total lookup agrees with it. -/
def cell (m : Matrix) (i j : Nat) : F32 := (m.rows.getD i []).getD j (F32.num 0)

/-- Modelled from the spec: `Dot(A, B)` is standard matrix multiplication,
cell `(i,j)` the sum over `k` of `A[i][k] * B[k][j]`; fails with
`DimensionMismatch` when `A.cols ≠ B.rows`. -/
def dot (a b : Matrix) : Except Error Matrix :=
  if a.numCols = b.numRows then
    Except.ok ⟨a.rows.map (fun row =>
      (List.range b.numCols).map (fun j =>
        (List.range b.numRows).foldl
          (fun acc k =>
            acc + row.getD k (F32.num 0) * ((b.rows.getD k []).getD j (F32.num 0)))
          (F32.num 0)))⟩
  else Except.error (Error.dimensionMismatch a.numCols b.numRows)

/-- Modelled from the spec: `Add(A, bias)` broadcasts a bias vector onto
every row, cell `(i,j)` becoming `A[i][j] + bias[j]`; fails with
`DimensionMismatch` when `bias.len ≠ A.cols`. -/
def add (a : Matrix) (bias : List F32) : Except Error Matrix :=
  if bias.length = a.numCols then
    Except.ok ⟨a.rows.map (fun row => List.zipWith (fun x b => x + b) row bias)⟩
  else Except.error (Error.dimensionMismatch a.numCols bias.length)

/-- Modelled from the spec: leaky ReLU, elementwise `x >= 0 ? x : alpha * x`;
always succeeds. -/
def relu (a : Matrix) (alpha : F32) : Matrix :=
  ⟨a.rows.map (fun row => row.map (fun x => if x.isNonneg then x else alpha * x))⟩

end Matrix

/-- The `Weights` struct of `model_data.rs`: three kernel/bias layer pairs. -/
structure Weights where
  l0_bias : List F32
  l0_kernel : Matrix
  l1_bias : List F32
  l1_kernel : Matrix
  l2_bias : List F32
  l2_kernel : Matrix
deriving DecidableEq

/-- The `FieldsDescribe` struct of `model_data.rs`: per-feature `mean` and
`std` statistics. -/
structure FieldsDescribe where
  mean : HMap
  std : HMap
deriving DecidableEq

/-- The `ModelData` struct of `model_data.rs`. -/
structure ModelData where
  norm : FieldsDescribe
  weights : Weights
  fields : List String
  alpha : F32
deriving DecidableEq

/-- The body of `ModelData::predict`: the three dense layers, with the `?`
operator embedded as `Except` bind, returning `c2[0][0]` on success. -/
def ModelData.predict (m : ModelData) (input : Matrix) : Except Error F32 := do
  let a1 ← input.dot m.weights.l0_kernel
  let a2 ← a1.add m.weights.l0_bias
  let a3 := a2.relu m.alpha
  let b1 ← a3.dot m.weights.l1_kernel
  let b2 ← b1.add m.weights.l1_bias
  let b3 := b2.relu m.alpha
  let c1 ← b3.dot m.weights.l2_kernel
  let c2 ← c1.add m.weights.l2_bias
  return c2.cell 0 0

/-- The loop body of `ModelData::norm`, iterating the fields in order:
raw value defaults to `0.0` when absent from the input, the `std` lookup is
tried first (failing with `MissingStdData`), then `mean` (failing with
`MissingMeanData`), and `(x - mean) / std` is pushed. -/
def normLoop (stats : FieldsDescribe) (input : HMap) :
    List String → Except Error (List F32)
  | [] => Except.ok []
  | field :: rest =>
      let x := (input.get field).getD (F32.num 0)
      match stats.std.get field with
      | none => Except.error (Error.missingStdData field)
      | some std =>
        match stats.mean.get field with
        | none => Except.error (Error.missingMeanData field)
        | some mean =>
          match normLoop stats input rest with
          | Except.error e => Except.error e
          | Except.ok result => Except.ok (((x - mean) / std) :: result)

/-- `ModelData::norm` (named `normalize` here because `norm` is already the
statistics field of the struct): runs the loop over `fields` and wraps the
collected values with `Matrix::from_array`. -/
def ModelData.normalize (m : ModelData) (input : HMap) : Except Error Matrix :=
  match normLoop m.norm input m.fields with
  | Except.error e => Except.error e
  | Except.ok result => Except.ok (Matrix.from_array result)

/-- `ModelData::norm_predict`: normalize, then predict, each `?` embedded as
`Except` bind. -/
def ModelData.norm_predict (m : ModelData) (input : HMap) : Except Error F32 := do
  let input ← m.normalize input
  m.predict input

/-- Modelled from the spec, section 4.2: the pipeline written exactly as the
spec states it — `h1 = relu(dot(x, kernel0) + bias0, alpha)`,
`h2 = relu(dot(h1, kernel1) + bias1, alpha)`, `out = dot(h2, kernel2) + bias2`,
returning `out[0][0]`. -/
def predictSpec (m : ModelData) (x : Matrix) : Except Error F32 := do
  let h1 := Matrix.relu (← (← x.dot m.weights.l0_kernel).add m.weights.l0_bias) m.alpha
  let h2 := Matrix.relu (← (← h1.dot m.weights.l1_kernel).add m.weights.l1_bias) m.alpha
  let out ← (← h2.dot m.weights.l2_kernel).add m.weights.l2_bias
  return out.cell 0 0

/-- The error produced by the earliest failing fallible stage of the predict
pipeline (`none` when every stage succeeds): the reference point for the
error-propagation claim about `predict`. -/
def firstStageError (m : ModelData) (input : Matrix) : Option Error :=
  match input.dot m.weights.l0_kernel with
  | Except.error e => some e
  | Except.ok a1 =>
    match a1.add m.weights.l0_bias with
    | Except.error e => some e
    | Except.ok a2 =>
      match (a2.relu m.alpha).dot m.weights.l1_kernel with
      | Except.error e => some e
      | Except.ok b1 =>
        match b1.add m.weights.l1_bias with
        | Except.error e => some e
        | Except.ok b2 =>
          match (b2.relu m.alpha).dot m.weights.l2_kernel with
          | Except.error e => some e
          | Except.ok c1 =>
            match c1.add m.weights.l2_bias with
            | Except.error e => some e
            | Except.ok _ => none

/-- The normalized value the spec prescribes for one field: raw input value
(0 when absent) minus the field's mean, divided by the field's std, the
statistics read with a default that is only reached when the lookup cannot
fail. -/
def normValue (stats : FieldsDescribe) (input : HMap) (field : String) : F32 :=
  ((input.get field).getD (F32.num 0) - (stats.mean.get field).getD (F32.num 0))
    / (stats.std.get field).getD (F32.num 0)

/-- A field has complete statistics when both its std and its mean entry are
present. -/
def statsComplete (stats : FieldsDescribe) (field : String) : Prop :=
  (stats.std.get field).isSome ∧ (stats.mean.get field).isSome

instance (stats : FieldsDescribe) (field : String) :
    Decidable (statsComplete stats field) := by
  unfold statsComplete; infer_instance

/-- Concrete sample input map. -/
def sampleInput : HMap := ⟨[("a", F32.num 3), ("b", F32.num 4)]⟩

/-- The same associations as `sampleInput`, listed in the other order. -/
def sampleInputRev : HMap := ⟨[("b", F32.num 4), ("a", F32.num 3)]⟩

/-- Concrete input map lacking field `b`. -/
def inputOnlyA : HMap := ⟨[("a", F32.num 3)]⟩

/-- Concrete statistics covering fields `a` and `b`. -/
def sampleStats : FieldsDescribe :=
  ⟨⟨[("a", F32.num 1), ("b", F32.num 2)]⟩, ⟨[("a", F32.num 2), ("b", F32.num 4)]⟩⟩

/-- Concrete statistics that omit field `b` from both maps. -/
def gapStats : FieldsDescribe := ⟨⟨[("a", F32.num 1)]⟩, ⟨[("a", F32.num 2)]⟩⟩

/-- Concrete statistics whose std entry for `a` is `0.0`. -/
def zeroStats : FieldsDescribe := ⟨⟨[("a", F32.num 1)]⟩, ⟨[("a", F32.num 0)]⟩⟩

/-- Concrete weights for a 2-wide input: layers of widths 2→1→1→1. -/
def sampleWeights : Weights :=
  ⟨[F32.num 0], ⟨[[F32.num 1], [F32.num 1]]⟩,
   [F32.num 0], ⟨[[F32.num 1]]⟩,
   [F32.num 0], ⟨[[F32.num 1]]⟩⟩

/-- A second, different set of concrete weights of the same shapes. -/
def otherWeights : Weights :=
  ⟨[F32.num 5], ⟨[[F32.num 2], [F32.num 3]]⟩,
   [F32.num 5], ⟨[[F32.num 2]]⟩,
   [F32.num 5], ⟨[[F32.num 2]]⟩⟩

/-- Concrete model over fields `a`, `b` with complete statistics. -/
def sampleModel : ModelData := ⟨sampleStats, sampleWeights, ["a", "b"], F32.num (1 / 100)⟩

/-- Same statistics and fields as `sampleModel`, different weights and alpha. -/
def sampleModelW : ModelData := ⟨sampleStats, otherWeights, ["a", "b"], F32.num 1⟩

/-- Same weights and alpha as `sampleModel`, different statistics and fields. -/
def sampleModelS : ModelData := ⟨gapStats, sampleWeights, ["a"], F32.num (1 / 100)⟩

/-- Concrete model whose statistics omit field `b`. -/
def gapModel : ModelData := ⟨gapStats, sampleWeights, ["a", "b"], F32.num (1 / 100)⟩

/-- Concrete model whose std entry for its only field is `0.0`. -/
def zeroModel : ModelData := ⟨zeroStats, sampleWeights, ["a"], F32.num (1 / 100)⟩

/-- Concrete 1×2 input row vector. -/
def sampleMatrix : Matrix := ⟨[[F32.num 1, F32.num 1]]⟩

theorem normLoop_ok_iff (stats : FieldsDescribe) (input : HMap)
    (fs : List String) (l : List F32) :
    normLoop stats input fs = Except.ok l ↔
      (∀ f ∈ fs, statsComplete stats f) ∧ l = fs.map (normValue stats input) := by
  induction fs generalizing l with
  | nil =>
      simp [normLoop, eq_comm]
  | cons f rest ih =>
      simp only [normLoop]
      cases hstd : stats.std.get f with
      | none =>
          simp [statsComplete, hstd]
      | some std =>
          cases hmean : stats.mean.get f with
          | none =>
              simp [statsComplete, hstd, hmean]
          | some mean =>
              cases hrest : normLoop stats input rest with
              | error e =>
                  constructor
                  · intro h
                    exact absurd h (by simp)
                  · rintro ⟨hall, hl⟩
                    have hr := (ih (rest.map (normValue stats input))).mpr
                      ⟨fun g hg => hall g (List.mem_cons_of_mem f hg), rfl⟩
                    rw [hrest] at hr
                    exact absurd hr (by simp)
              | ok result =>
                  constructor
                  · intro h
                    have hok := Except.ok.inj h
                    have hr := (ih result).mp hrest
                    refine ⟨?_, ?_⟩
                    · intro g hg
                      rcases List.mem_cons.mp hg with hg | hg
                      · subst hg
                        exact ⟨by simp [hstd], by simp [hmean]⟩
                      · exact hr.1 g hg
                    · rw [← hok, List.map_cons, hr.2]
                      simp [normValue, hstd, hmean]
                  · rintro ⟨hall, hl⟩
                    have hr := (ih (rest.map (normValue stats input))).mpr
                      ⟨fun g hg => hall g (List.mem_cons_of_mem f hg), rfl⟩
                    rw [hrest] at hr
                    have := Except.ok.inj hr
                    subst hl
                    simp [List.map_cons, normValue, hstd, hmean, this]

theorem normLoop_error_elim (stats : FieldsDescribe) (input : HMap) :
    ∀ (fs : List String) (e : Error), normLoop stats input fs = Except.error e →
      ∃ i, ∃ hi : i < fs.length,
        (∀ j, ∀ hj : j < i, statsComplete stats (fs.get ⟨j, Nat.lt_trans hj hi⟩)) ∧
        ((stats.std.get (fs.get ⟨i, hi⟩) = none ∧
            e = Error.missingStdData (fs.get ⟨i, hi⟩)) ∨
         ((stats.std.get (fs.get ⟨i, hi⟩)).isSome ∧
            stats.mean.get (fs.get ⟨i, hi⟩) = none ∧
            e = Error.missingMeanData (fs.get ⟨i, hi⟩)))
  | [], e, h => absurd h (by simp [normLoop])
  | f :: rest, e, h => by
      rw [normLoop] at h
      cases hstd : stats.std.get f with
      | none =>
          rw [hstd] at h
          refine ⟨0, Nat.succ_pos _, by omega, Or.inl ⟨hstd, ?_⟩⟩
          exact (Except.error.inj h).symm
      | some std =>
          rw [hstd] at h
          cases hmean : stats.mean.get f with
          | none =>
              rw [hmean] at h
              refine ⟨0, Nat.succ_pos _, by omega, Or.inr ⟨by simp [hstd], hmean, ?_⟩⟩
              exact (Except.error.inj h).symm
          | some mean =>
              rw [hmean] at h
              cases hrest : normLoop stats input rest with
              | error e₀ =>
                  rw [hrest] at h
                  obtain ⟨i, hi, hpre, hlast⟩ := normLoop_error_elim stats input rest e₀ hrest
                  refine ⟨i + 1, Nat.succ_lt_succ hi, ?_, ?_⟩
                  · intro j hj
                    cases j with
                    | zero => exact ⟨by simp [hstd], by simp [hmean]⟩
                    | succ j₀ => exact hpre j₀ (Nat.lt_of_succ_lt_succ hj)
                  · have he : e = e₀ := (Except.error.inj h).symm
                    subst he
                    exact hlast
              | ok result =>
                  rw [hrest] at h
                  exact absurd h (by simp)

theorem normLoop_input_congr (stats : FieldsDescribe) (i₁ i₂ : HMap)
    (h : ∀ k, (i₁.get k).getD (F32.num 0) = (i₂.get k).getD (F32.num 0)) :
    ∀ fs : List String, normLoop stats i₁ fs = normLoop stats i₂ fs
  | [] => rfl
  | f :: rest => by
      rw [normLoop, normLoop, h f, normLoop_input_congr stats i₁ i₂ h rest]

theorem normalize_eq_ok_iff (m : ModelData) (input : HMap) (r : Matrix) :
    m.normalize input = Except.ok r ↔
      (∀ f ∈ m.fields, statsComplete m.norm f) ∧
      r = Matrix.from_array (m.fields.map (normValue m.norm input)) := by
  unfold ModelData.normalize
  cases hl : normLoop m.norm input m.fields with
  | error e =>
      have := (normLoop_ok_iff m.norm input m.fields
        (m.fields.map (normValue m.norm input))).mpr
      constructor
      · intro h
        exact absurd h (by simp)
      · rintro ⟨hall, hr⟩
        rw [this ⟨hall, rfl⟩] at hl
        exact absurd hl (by simp)
  | ok result =>
      have hres := (normLoop_ok_iff m.norm input m.fields result).mp hl
      simp only [Except.ok.injEq]
      constructor
      · intro h
        exact ⟨hres.1, by rw [← h, hres.2]⟩
      · rintro ⟨hall, hr⟩
        rw [hr, hres.2]

theorem normalize_eq_error_iff (m : ModelData) (input : HMap) (e : Error) :
    m.normalize input = Except.error e ↔
      normLoop m.norm input m.fields = Except.error e := by
  unfold ModelData.normalize
  cases normLoop m.norm input m.fields <;> simp

theorem from_array_size (l : List F32) :
    (Matrix.from_array l).size = (1, l.length) := rfl

theorem from_array_cell (l : List F32) (j : Nat) (hj : j < l.length) :
    (Matrix.from_array l).cell 0 j = l.get ⟨j, hj⟩ := by
  simp [Matrix.from_array, Matrix.cell, List.getD, List.getElem?_eq_getElem hj]

/-- Division of any embedded f32 value by positive zero yields infinity,
negative infinity or NaN, never a finite value and never a failure. -/
theorem F32.div_zero_special (a : F32) :
    a / F32.num 0 = F32.inf ∨ a / F32.num 0 = F32.neginf ∨ a / F32.num 0 = F32.nan := by
  cases a with
  | num q =>
      simp only [HDiv.hDiv, Div.div, F32.div]
      split_ifs <;> simp
  | inf => simp [HDiv.hDiv, Div.div, F32.div]
  | neginf => simp [HDiv.hDiv, Div.div, F32.div]
  | nan => simp [HDiv.hDiv, Div.div, F32.div]

/-- C1: for every model `m` and input row-vector matrix `x`, `predict m x`
computes exactly the spec's fixed three-stage pipeline — leaky ReLU with
slope `m.alpha` after layers 0 and 1 only, never after layer 2 — and on
success returns the cell `out[0][0]`. -/
theorem predict_eq_predictSpec (m : ModelData) (x : Matrix) :
    m.predict x = predictSpec m x := rfl

/-- C6: `predict` fails with error `e` exactly when the earliest failing
stage of the pipeline produced `e`; the matrix-level error is propagated
unchanged and no later stage contributes. -/
theorem predict_error_propagation (m : ModelData) (x : Matrix) (e : Error) :
    m.predict x = Except.error e ↔ firstStageError m x = some e := by
  unfold ModelData.predict firstStageError
  cases x.dot m.weights.l0_kernel with
  | error e₀ => simp [Bind.bind, Except.bind]
  | ok a1 =>
    simp only [Bind.bind, Except.bind]
    cases a1.add m.weights.l0_bias with
    | error e₀ => simp [Bind.bind, Except.bind]
    | ok a2 =>
      simp only [Bind.bind, Except.bind]
      cases (a2.relu m.alpha).dot m.weights.l1_kernel with
      | error e₀ => simp [Bind.bind, Except.bind]
      | ok b1 =>
        simp only [Bind.bind, Except.bind]
        cases b1.add m.weights.l1_bias with
        | error e₀ => simp [Bind.bind, Except.bind]
        | ok b2 =>
          simp only [Bind.bind, Except.bind]
          cases (b2.relu m.alpha).dot m.weights.l2_kernel with
          | error e₀ => simp [Bind.bind, Except.bind]
          | ok c1 =>
            simp only [Bind.bind, Except.bind]
            cases c1.add m.weights.l2_bias with
            | error e₀ => simp [Bind.bind, Except.bind]
            | ok c2 => simp [Bind.bind, Except.bind, Pure.pure, Except.pure]

/-- C7: `norm_predict` is exactly the composition of `normalize` and
`predict`: an error from `normalize` is returned as is, and otherwise the
result is exactly `predict` on the normalized matrix. -/
theorem norm_predict_is_composition (m : ModelData) (input : HMap) :
    m.norm_predict input =
      match m.normalize input with
      | Except.error e => Except.error e
      | Except.ok r => m.predict r := by
  unfold ModelData.norm_predict
  cases m.normalize input with
  | error e => rfl
  | ok r => rfl

/-- C8: `normalize`, `predict` and `norm_predict` are stateless pure
functions of the model's stored data and the input: each result depends only
on the components it reads (statistics and fields for `normalize`, weights
and alpha for `predict`, all four for `norm_predict`), so equal arguments
always give equal results and no other state exists to be mutated. -/
theorem eval_pure_function_of_model (m m' : ModelData) (x : Matrix) (i : HMap) :
    (m.norm = m'.norm → m.fields = m'.fields → m.normalize i = m'.normalize i) ∧
    (m.weights = m'.weights → m.alpha = m'.alpha → m.predict x = m'.predict x) ∧
    (m.norm = m'.norm → m.fields = m'.fields → m.weights = m'.weights →
      m.alpha = m'.alpha → m.norm_predict i = m'.norm_predict i) := by
  have hnorm : m.norm = m'.norm → m.fields = m'.fields →
      ∀ j : HMap, m.normalize j = m'.normalize j := by
    intro h₁ h₂ j
    unfold ModelData.normalize
    rw [h₁, h₂]
  have hpred : m.weights = m'.weights → m.alpha = m'.alpha →
      ∀ y : Matrix, m.predict y = m'.predict y := by
    intro hw ha y
    unfold ModelData.predict
    rw [hw, ha]
  refine ⟨fun h₁ h₂ => hnorm h₁ h₂ i, fun hw ha => hpred hw ha x,
    fun h₁ h₂ h₃ h₄ => ?_⟩
  unfold ModelData.norm_predict
  rw [hnorm h₁ h₂ i]
  cases m'.normalize i with
  | error e => simp [Bind.bind, Except.bind]
  | ok r => simp [Bind.bind, Except.bind, hpred h₃ h₄ r]

/-- Witness for C8 at concrete models: changing only the weights and alpha
leaves `normalize` unchanged, and changing only the statistics and fields
leaves `predict` unchanged. -/
theorem eval_pure_function_of_model_witness :
    sampleModel.normalize sampleInput = sampleModelW.normalize sampleInput ∧
    sampleModel.predict sampleMatrix = sampleModelS.predict sampleMatrix :=
  ⟨(eval_pure_function_of_model sampleModel sampleModelW sampleMatrix sampleInput).1 rfl rfl,
   (eval_pure_function_of_model sampleModel sampleModelS sampleMatrix sampleInput).2.1 rfl rfl⟩

/-- C2: when every field has both a mean and a std entry, `normalize`
succeeds for every input and returns a single-row matrix of width
`fields.length` whose `j`-th column is `(value_j - mean_j) / std_j`, the
value defaulting to 0 when the input omits the field. -/
theorem normalize_complete_ok (m : ModelData) (input : HMap)
    (h : ∀ f ∈ m.fields, statsComplete m.norm f) :
    ∃ r, m.normalize input = Except.ok r ∧
      r.size = (1, m.fields.length) ∧
      ∀ j, ∀ hj : j < m.fields.length,
        r.cell 0 j = normValue m.norm input (m.fields.get ⟨j, hj⟩) := by
  refine ⟨Matrix.from_array (m.fields.map (normValue m.norm input)), ?_, ?_, ?_⟩
  · exact (normalize_eq_ok_iff m input _).mpr ⟨h, rfl⟩
  · rw [from_array_size, List.length_map]
  · intro j hj
    have hj' : j < (m.fields.map (normValue m.norm input)).length := by
      rw [List.length_map]
      exact hj
    rw [from_array_cell _ j hj']
    simp [List.get_eq_getElem, List.getElem_map]

/-- Witness for C2: a concrete model with complete statistics normalizes a
concrete input successfully with the prescribed columns. -/
theorem normalize_complete_ok_witness :
    ∃ r, sampleModel.normalize sampleInput = Except.ok r ∧
      r.size = (1, sampleModel.fields.length) ∧
      ∀ j, ∀ hj : j < sampleModel.fields.length,
        r.cell 0 j = normValue sampleModel.norm sampleInput
          (sampleModel.fields.get ⟨j, hj⟩) :=
  normalize_complete_ok sampleModel sampleInput (by decide)

/-- C3: when some field in `fields` lacks a std or mean entry, `normalize`
fails — never returning a matrix — with an error that names a field whose
statistic is indeed absent and distinguishes std from mean. -/
theorem normalize_missing_stat_error (m : ModelData) (input : HMap)
    (h : ∃ f ∈ m.fields, m.norm.std.get f = none ∨ m.norm.mean.get f = none) :
    ∃ g ∈ m.fields,
      (m.normalize input = Except.error (Error.missingStdData g) ∧
        m.norm.std.get g = none) ∨
      (m.normalize input = Except.error (Error.missingMeanData g) ∧
        m.norm.mean.get g = none) := by
  cases hl : normLoop m.norm input m.fields with
  | ok result =>
      obtain ⟨hall, -⟩ := (normLoop_ok_iff m.norm input m.fields result).mp hl
      obtain ⟨f, hf, hcase⟩ := h
      obtain ⟨hs, hm⟩ := hall f hf
      cases hcase with
      | inl h₀ =>
          rw [h₀] at hs
          exact absurd hs (by simp)
      | inr h₀ =>
          rw [h₀] at hm
          exact absurd hm (by simp)
  | error e =>
      obtain ⟨i, hi, hpre, hlast⟩ := normLoop_error_elim m.norm input m.fields e hl
      have hne : m.normalize input = Except.error e :=
        (normalize_eq_error_iff m input e).mpr hl
      refine ⟨m.fields.get ⟨i, hi⟩, List.get_mem m.fields i hi, ?_⟩
      cases hlast with
      | inl h₀ => exact Or.inl ⟨by rw [hne, h₀.2], h₀.1⟩
      | inr h₀ => exact Or.inr ⟨by rw [hne, h₀.2.2], h₀.2.1⟩

/-- Witness for C3: a concrete model missing the statistics of field `b`
fails with an error naming `b`. -/
theorem normalize_missing_stat_error_witness :
    ∃ g ∈ gapModel.fields,
      (gapModel.normalize sampleInput = Except.error (Error.missingStdData g) ∧
        gapModel.norm.std.get g = none) ∨
      (gapModel.normalize sampleInput = Except.error (Error.missingMeanData g) ∧
        gapModel.norm.mean.get g = none) :=
  normalize_missing_stat_error gapModel sampleInput (by decide)

/-- C4: when the input map lacks field `f`, `normalize` behaves exactly as
if the caller had supplied `0.0` for `f`, and any column produced for `f`
equals `(0.0 - mean_f) / std_f`. -/
theorem normalize_missing_input_defaults_zero (m : ModelData) (input : HMap)
    (f : String) (hf : input.get f = none) :
    m.normalize input = m.normalize ⟨(f, F32.num 0) :: input.entries⟩ ∧
    ∀ r j, ∀ hj : j < m.fields.length, m.normalize input = Except.ok r →
      m.fields.get ⟨j, hj⟩ = f →
      r.cell 0 j =
        (F32.num 0 - (m.norm.mean.get f).getD (F32.num 0))
          / (m.norm.std.get f).getD (F32.num 0) := by
  constructor
  · have hcong : ∀ k, (input.get k).getD (F32.num 0) =
        (HMap.get ⟨(f, F32.num 0) :: input.entries⟩ k).getD (F32.num 0) := by
      intro k
      by_cases hk : f = k
      · subst hk
        rw [hf]
        simp [HMap.get, HMap.get.go]
      · simp [HMap.get, HMap.get.go, hk]
    unfold ModelData.normalize
    rw [normLoop_input_congr m.norm input ⟨(f, F32.num 0) :: input.entries⟩ hcong m.fields]
  · intro r j hj hok hfj
    obtain ⟨-, hr⟩ := (normalize_eq_ok_iff m input r).mp hok
    subst hr
    have hj' : j < (m.fields.map (normValue m.norm input)).length := by
      rw [List.length_map]
      exact hj
    rw [from_array_cell _ j hj']
    have hfj' : m.fields[j] = f := by
      simpa using hfj
    simp only [List.get_eq_getElem, List.getElem_map, hfj']
    simp [normValue, hf]

/-- Witness for C4: a concrete input lacking field `b` normalizes exactly as
the same input extended with `b ↦ 0`. -/
theorem normalize_missing_input_defaults_zero_witness :
    sampleModel.normalize inputOnlyA =
      sampleModel.normalize ⟨("b", F32.num 0) :: inputOnlyA.entries⟩ ∧
    ∀ r j, ∀ hj : j < sampleModel.fields.length,
      sampleModel.normalize inputOnlyA = Except.ok r →
      sampleModel.fields.get ⟨j, hj⟩ = "b" →
      r.cell 0 j =
        (F32.num 0 - (sampleModel.norm.mean.get "b").getD (F32.num 0))
          / (sampleModel.norm.std.get "b").getD (F32.num 0) :=
  normalize_missing_input_defaults_zero sampleModel inputOnlyA "b" (by decide)

/-- C5: `normalize` output columns follow the stored `fields` order (column
`j` corresponds to `fields[j]`), and two input maps with the same
key-to-value associations (equal under lookup, whatever their entry order)
yield identical outputs. -/
theorem normalize_order_invariant (m : ModelData) (i₁ i₂ : HMap)
    (h : ∀ k, i₁.get k = i₂.get k) :
    m.normalize i₁ = m.normalize i₂ ∧
    ∀ r j, ∀ hj : j < m.fields.length, m.normalize i₁ = Except.ok r →
      r.cell 0 j = normValue m.norm i₁ (m.fields.get ⟨j, hj⟩) := by
  constructor
  · unfold ModelData.normalize
    rw [normLoop_input_congr m.norm i₁ i₂ (fun k => by rw [h k]) m.fields]
  · intro r j hj hok
    obtain ⟨-, hr⟩ := (normalize_eq_ok_iff m i₁ r).mp hok
    subst hr
    have hj' : j < (m.fields.map (normValue m.norm i₁)).length := by
      rw [List.length_map]
      exact hj
    rw [from_array_cell _ j hj']
    simp [List.get_eq_getElem, List.getElem_map]

/-- Witness for C5: the same associations listed in either order normalize
identically under a concrete model. -/
theorem normalize_order_invariant_witness :
    sampleModel.normalize sampleInput = sampleModel.normalize sampleInputRev ∧
    ∀ r j, ∀ hj : j < sampleModel.fields.length,
      sampleModel.normalize sampleInput = Except.ok r →
      r.cell 0 j = normValue sampleModel.norm sampleInput
        (sampleModel.fields.get ⟨j, hj⟩) :=
  normalize_order_invariant sampleModel sampleInput sampleInputRev (by
    intro k
    by_cases ha : "a" = k
    · subst ha
      decide
    · by_cases hb : "b" = k
      · subst hb
        decide
      · simp [sampleInput, sampleInputRev, HMap.get, HMap.get.go, ha, hb])

/-- C9: the std map is consulted before the mean map, so a failing
`normalize` names the earliest field in `fields` order lacking a statistic,
and a field missing both entries yields the `MissingStdData` variant. -/
theorem normalize_std_before_mean (m : ModelData) (input : HMap) (e : Error)
    (h : m.normalize input = Except.error e) :
    ∃ i, ∃ hi : i < m.fields.length,
      (∀ j, ∀ hj : j < i, statsComplete m.norm (m.fields.get ⟨j, Nat.lt_trans hj hi⟩)) ∧
      ((m.norm.std.get (m.fields.get ⟨i, hi⟩) = none ∧
          e = Error.missingStdData (m.fields.get ⟨i, hi⟩)) ∨
       ((m.norm.std.get (m.fields.get ⟨i, hi⟩)).isSome ∧
          m.norm.mean.get (m.fields.get ⟨i, hi⟩) = none ∧
          e = Error.missingMeanData (m.fields.get ⟨i, hi⟩))) :=
  normLoop_error_elim m.norm input m.fields e
    ((normalize_eq_error_iff m input e).mp h)

/-- Witness for C9: a concrete model whose field `b` lacks both entries
fails with the std-missing variant naming `b`, and the earlier field `a` is
complete. -/
theorem normalize_std_before_mean_witness :
    ∃ i, ∃ hi : i < gapModel.fields.length,
      (∀ j, ∀ hj : j < i,
        statsComplete gapModel.norm (gapModel.fields.get ⟨j, Nat.lt_trans hj hi⟩)) ∧
      ((gapModel.norm.std.get (gapModel.fields.get ⟨i, hi⟩) = none ∧
          Error.missingStdData "b" =
            Error.missingStdData (gapModel.fields.get ⟨i, hi⟩)) ∨
       ((gapModel.norm.std.get (gapModel.fields.get ⟨i, hi⟩)).isSome ∧
          gapModel.norm.mean.get (gapModel.fields.get ⟨i, hi⟩) = none ∧
          Error.missingStdData "b" =
            Error.missingMeanData (gapModel.fields.get ⟨i, hi⟩))) :=
  normalize_std_before_mean gapModel sampleInput (Error.missingStdData "b") rfl

/-- C10: `normalize` errors exactly when some field lacks a std or mean
entry; a std entry equal to `0.0` is not rejected — the column is computed
by IEEE-754 division by zero, yielding infinity or NaN, never an error. -/
theorem normalize_error_iff_missing_stat (m : ModelData) (input : HMap) :
    ((∃ e, m.normalize input = Except.error e) ↔
      ∃ f ∈ m.fields, m.norm.std.get f = none ∨ m.norm.mean.get f = none) ∧
    (∀ r j, ∀ hj : j < m.fields.length, m.normalize input = Except.ok r →
      m.norm.std.get (m.fields.get ⟨j, hj⟩) = some (F32.num 0) →
      (r.cell 0 j = F32.inf ∨ r.cell 0 j = F32.neginf ∨ r.cell 0 j = F32.nan)) := by
  constructor
  · constructor
    · rintro ⟨e, he⟩
      obtain ⟨i, hi, -, hlast⟩ := normLoop_error_elim m.norm input m.fields e
        ((normalize_eq_error_iff m input e).mp he)
      refine ⟨m.fields.get ⟨i, hi⟩, List.get_mem m.fields i hi, ?_⟩
      cases hlast with
      | inl h₀ => exact Or.inl h₀.1
      | inr h₀ => exact Or.inr h₀.2.1
    · rintro ⟨f, hf, hor⟩
      cases hn : m.normalize input with
      | error e => exact ⟨e, rfl⟩
      | ok r =>
          obtain ⟨hall, -⟩ := (normalize_eq_ok_iff m input r).mp hn
          obtain ⟨hs, hm⟩ := hall f hf
          cases hor with
          | inl h₀ =>
              rw [h₀] at hs
              exact absurd hs (by simp)
          | inr h₀ =>
              rw [h₀] at hm
              exact absurd hm (by simp)
  · intro r j hj hok hstd0
    obtain ⟨-, hr⟩ := (normalize_eq_ok_iff m input r).mp hok
    subst hr
    have hj' : j < (m.fields.map (normValue m.norm input)).length := by
      rw [List.length_map]
      exact hj
    rw [from_array_cell _ j hj']
    have hstd0' : m.norm.std.get m.fields[j] = some (F32.num 0) := by
      simpa using hstd0
    simp only [List.get_eq_getElem, List.getElem_map, normValue, hstd0', Option.getD_some]
    exact F32.div_zero_special _

/-- Witness for C10: a concrete model whose std entry for `a` is `0.0`
normalizes successfully and the resulting column is a special value. -/
theorem normalize_error_iff_missing_stat_witness :
    (Matrix.from_array [F32.inf]).cell 0 0 = F32.inf ∨
    (Matrix.from_array [F32.inf]).cell 0 0 = F32.neginf ∨
    (Matrix.from_array [F32.inf]).cell 0 0 = F32.nan :=
  (normalize_error_iff_missing_stat zeroModel sampleInput).2
    (Matrix.from_array [F32.inf]) 0 (by decide)
    (by norm_num [ModelData.normalize, normLoop, zeroModel, zeroStats, sampleInput,
      HMap.get, HMap.get.go, HSub.hSub, Sub.sub, F32.sub, F32.add, F32.neg,
      HDiv.hDiv, Div.div, F32.div, Matrix.from_array])
    rfl

end FeeModel
